import Mathlib

/-!
Shallow embedding of the textland text-mode display toolkit
(src/textland: image.py, drawing.py, display.py, attribute.py, colors.py,
together with the value types of the bits.py / events.py modules) and
theorems about the properties stated in the specification.

Conventions:
* Python integers are modelled as Lean Int (coordinates, sizes) or Nat
  (style words, which every caller keeps non-negative).
* A Python operation that can raise (assertion failure, IndexError,
  OverflowError, ValueError, StopIteration, TypeError) is modelled in
  Option / Except: none resp. .error is the raised exception.
* Mutation of an object is modelled by returning the updated value.
-/

namespace Textland

/-- Modelled from the spec: bits.py is not under src/ (only its importers
are).  Size is an immutable value type with width and height fields. -/
structure Size where
  width : Int
  height : Int
deriving DecidableEq, Repr

/-- Modelled from the spec: bits.py is not under src/.  Offset is the x, y
paint-cursor position of a DrawingContext, allowed to be negative or
beyond the buffer. -/
structure Offset where
  x : Int
  y : Int
deriving DecidableEq, Repr

/-- Modelled from the spec: bits.py is not under src/.  Rect2 is a
rectangle with inclusive x1, y1 and exclusive x2, y2 bounds, in absolute
buffer coordinates. -/
structure Rect2 where
  x1 : Int
  y1 : Int
  x2 : Int
  y2 : Int
deriving DecidableEq, Repr

/-- Modelled from the spec: bits.py is not under src/.  A Cell is one
character plus its 16-bit packed style word. -/
structure Cell where
  char : Char
  attributes : Nat
deriving DecidableEq, Repr

/-- attribute.py: normal video attribute (no bits set). -/
def NORMAL : Nat := 0

/-- attribute.py: reverse-video attribute bit. -/
def REVERSE : Nat := 1

/-- attribute.py: underline attribute bit. -/
def UNDERLINE : Nat := 2

/-- colors.py: ANSI color index 0. -/
def BLACK : Nat := 0

/-- colors.py: ANSI color index 1. -/
def RED : Nat := 1

/-- colors.py: ANSI color index 7. -/
def WHITE : Nat := 7

/-- colors.py: bright variant of GREEN, index 10. -/
def BRIGHT_GREEN : Nat := 10

/-- Python indexing of an array or list: a non-negative index reads from
the front (IndexError, i.e. none, at or past the length), a negative
index reads from the back (IndexError below -length). -/
def pyGetElem {α : Type} (l : List α) (i : Int) : Option α :=
  if 0 ≤ i then l[i.toNat]?
  else if 0 ≤ i + (l.length : Int) then l[(i + (l.length : Int)).toNat]?
  else none

/-- Python range(a, b) as a list of Ints (empty when b ≤ a). -/
def intRange (a b : Int) : List Int :=
  (List.range (b - a).toNat).map (fun k : Nat => a + (k : Int))

/-- image.py TextImage: a rectangular mutable text image holding a flat
row-major character buffer and a parallel 16-bit style-word buffer. -/
structure TextImage where
  size : Size
  text_buffer : List Char
  attribute_buffer : List Nat
deriving DecidableEq, Repr

/-- image.py TextImage.__init__ stores self.width = self.size.width; the
two are always identical, so the copy is modelled as a projection. -/
def TextImage.width (img : TextImage) : Int :=
  img.size.width

/-- image.py TextImage.__init__: the buffers hold width * height space
characters resp. zero style words. -/
def mkTextImage (size : Size) : TextImage :=
  { size := size
    text_buffer := List.replicate (size.width * size.height).toNat ' '
    attribute_buffer := List.replicate (size.width * size.height).toNat 0 }

/-- A store into an array of unsigned 16-bit shorts: values at or above
2 to the 16 raise OverflowError (modelled as none). -/
def store16 (v : Nat) : Option Nat :=
  if v < 65536 then some v else none

/-- image.py TextImage.put: asserts both coordinates in bounds, then
writes c and builds the packed style word by the compound-assignment
sequence store attrib; shift left 4; or foreground; shift left 4; or
background.  Each compound assignment stores back into the 16-bit array,
so each intermediate value is range-checked.  (On the overflow path
Python would already have written the character before raising; no claim
exercises that path, and the model collapses it to a plain fault.) -/
def TextImage.put (img : TextImage) (x y : Int) (c : Char)
    (attrib foreground background : Nat) : Option TextImage :=
  if 0 ≤ x ∧ x < img.size.width ∧ 0 ≤ y ∧ y < img.size.height then do
    let i := (x + y * img.width).toNat
    let v0 ← store16 attrib
    let v1 ← store16 (v0 <<< 4)
    let v2 ← store16 (v1 ||| foreground)
    let v3 ← store16 (v2 <<< 4)
    let v4 ← store16 (v3 ||| background)
    some { img with
      text_buffer := img.text_buffer.set i c
      attribute_buffer := img.attribute_buffer.set i v4 }
  else
    none

/-- image.py TextImage.get: no bounds assertion; reads the flat index
x + y * size.width out of both buffers with plain Python indexing and
returns the Cell. -/
def TextImage.get (img : TextImage) (x y : Int) : Option Cell := do
  let c ← pyGetElem img.text_buffer (x + y * img.size.width)
  let fmt ← pyGetElem img.attribute_buffer (x + y * img.size.width)
  some { char := c, attributes := fmt }

/-- Well-formedness invariant established by the constructor: sizes are
non-negative and both buffers have exactly width * height entries. -/
def TextImage.WF (img : TextImage) : Prop :=
  0 ≤ img.size.width ∧ 0 ≤ img.size.height ∧
    img.text_buffer.length = (img.size.width * img.size.height).toNat ∧
    img.attribute_buffer.length = (img.size.width * img.size.height).toNat

instance (img : TextImage) : Decidable img.WF := by
  unfold TextImage.WF; infer_instance

/-- The bounds condition asserted by TextImage.put. -/
def TextImage.inBounds (img : TextImage) (x y : Int) : Prop :=
  0 ≤ x ∧ x < img.size.width ∧ 0 ≤ y ∧ y < img.size.height

instance (img : TextImage) (x y : Int) : Decidable (img.inBounds x y) := by
  unfold TextImage.inBounds; infer_instance

/-- drawing.py DrawingContext state.  The offset, clip and image fields
are from src/textland/drawing.py.

Modelled from the spec: the style fields attrib, foreground, background
and their initial values.  The drawing.py under src/ is a superseded
revision that passes no style arguments to TextImage.put (whose six
mandatory parameters are from the final buffer-format revision) and has
no style setters, although its caller src/demo4.py uses them; the final
revision's style state, carried by the context and applied to every
paint call, is modelled from the spec (default: no attributes, white on
black). -/
structure DrawingContext where
  image : TextImage
  offset : Offset
  clip : Rect2
  attrib : Nat
  foreground : Nat
  background : Nat
deriving DecidableEq, Repr

/-- drawing.py DrawingContext.__init__: offset (0,0), clip the full
buffer extent, default style. -/
def DrawingContext.init (image : TextImage) : DrawingContext :=
  { image := image
    offset := ⟨0, 0⟩
    clip := ⟨0, 0, image.size.width, image.size.height⟩
    attrib := NORMAL
    foreground := WHITE
    background := BLACK }

/-- The single image.put call shared by fill and the print path: paint
one cell with the context's current style (Modelled from the spec: the
style arguments; the superseded src/ revision passes only x, y, c). -/
def DrawingContext.putCell (ctx : DrawingContext) (x y : Int) (c : Char) :
    Option DrawingContext :=
  match ctx.image.put x y c ctx.attrib ctx.foreground ctx.background with
  | none => none
  | some img => some { ctx with image := img }

/-- drawing.py DrawingContext.fill: iterate x over range(clip.x1, clip.x2)
and, per x, y over range(clip.y1, clip.y2) (the clip is re-read each
iteration, as in the source), calling image.put on every pair with no
bounds check of its own. -/
def DrawingContext.fill (ctx : DrawingContext) (c : Char) :
    Option DrawingContext :=
  (intRange ctx.clip.x1 ctx.clip.x2).foldlM
    (fun ctx1 x =>
      (intRange ctx1.clip.y1 ctx1.clip.y2).foldlM
        (fun ctx2 y => ctx2.putCell x y c) ctx1)
    ctx

/-- drawing.py DrawingContext.clip_to: replace the clip rectangle. -/
def DrawingContext.clip_to (ctx : DrawingContext) (x1 y1 x2 y2 : Int) :
    DrawingContext :=
  { ctx with clip := ⟨x1, y1, x2, y2⟩ }

/-- drawing.py DrawingContext.clip_by: shift each clip bound by a delta. -/
def DrawingContext.clip_by (ctx : DrawingContext) (dx1 dy1 dx2 dy2 : Int) :
    DrawingContext :=
  { ctx with clip :=
      ⟨ctx.clip.x1 + dx1, ctx.clip.y1 + dy1,
       ctx.clip.x2 + dx2, ctx.clip.y2 + dy2⟩ }

/-- drawing.py DrawingContext.move_to: set the offset absolutely. -/
def DrawingContext.move_to (ctx : DrawingContext) (x y : Int) :
    DrawingContext :=
  { ctx with offset := ⟨x, y⟩ }

/-- drawing.py DrawingContext.move_by: move the offset by a delta. -/
def DrawingContext.move_by (ctx : DrawingContext) (dx dy : Int) :
    DrawingContext :=
  { ctx with offset := ⟨ctx.offset.x + dx, ctx.offset.y + dy⟩ }

/-- drawing.py DrawingContext._put_x_y_c: paint one character at absolute
coordinates if they satisfy the clip test, else silently do nothing. -/
def DrawingContext.put_x_y_c (ctx : DrawingContext) (x y : Int) (c : Char) :
    Option DrawingContext :=
  if ctx.clip.x1 ≤ x ∧ x < ctx.clip.x2 ∧ ctx.clip.y1 ≤ y ∧ y < ctx.clip.y2
  then ctx.putCell x y c
  else some ctx

/-- drawing.py DrawingContext._put_dx_dy_c: paint relative to the offset. -/
def DrawingContext.put_dx_dy_c (ctx : DrawingContext) (dx dy : Int)
    (c : Char) : Option DrawingContext :=
  ctx.put_x_y_c (ctx.offset.x + dx) (ctx.offset.y + dy) c

/-- drawing.py DrawingContext._put_line: raise ValueError (none) on an
embedded line break, else paint character dx of the line at
offset + (dx, 0) for every dx. -/
def DrawingContext.put_line (ctx : DrawingContext) (text : List Char) :
    Option DrawingContext :=
  if '\n' ∈ text then none
  else
    text.enum.foldlM (fun ctx1 p => ctx1.put_dx_dy_c (p.1 : Int) 0 p.2) ctx

/-- Python str.splitlines restricted to the newline character: one entry
per line, a trailing newline does not open a final empty line, and the
empty string yields no lines at all. -/
def splitlinesGo : List Char → List Char → List (List Char)
  | acc, [] => [acc.reverse]
  | acc, ch :: rest =>
    if ch = '\n' then
      acc.reverse :: (if rest.isEmpty then [] else splitlinesGo [] rest)
    else
      splitlinesGo (ch :: acc) rest

/-- Python str.splitlines (for strings whose only line break is the
newline character, the only kind the repository uses). -/
def splitlines (s : List Char) : List (List Char) :=
  if s.isEmpty then [] else splitlinesGo [] s

/-- drawing.py DrawingContext.print: split on line breaks and, per line,
paint it at the current offset and then move the offset by (0, 1). -/
def DrawingContext.print (ctx : DrawingContext) (text : List Char) :
    Option DrawingContext :=
  (splitlines text).foldlM
    (fun ctx1 line => do
      let ctx2 ← ctx1.put_line line
      some (ctx2.move_by 0 1))
    ctx

/-- Modelled from the spec: the style setters of the final-revision
DrawingContext, absent from the superseded drawing.py under src/ but
called by src/demo4.py: set_fg_color stores the foreground color used by
subsequent paint calls. -/
def DrawingContext.set_fg_color (ctx : DrawingContext) (color : Nat) :
    DrawingContext :=
  { ctx with foreground := color }

/-- Modelled from the spec: set_bg_color stores the background color used
by subsequent paint calls. -/
def DrawingContext.set_bg_color (ctx : DrawingContext) (color : Nat) :
    DrawingContext :=
  { ctx with background := color }

/-- Modelled from the spec: set_attribute stores the video attribute bits
(combinable by bitwise or) used by subsequent paint calls. -/
def DrawingContext.set_attribute (ctx : DrawingContext) (a : Nat) :
    DrawingContext :=
  { ctx with attrib := a }

/-- Modelled from the spec: reset_colors restores the default white
foreground and black background. -/
def DrawingContext.reset_colors (ctx : DrawingContext) : DrawingContext :=
  { ctx with foreground := WHITE, background := BLACK }

/-- The style words a context built by the repository always satisfies:
each packed field fits in its 4-bit slot. -/
def DrawingContext.StyleOK (ctx : DrawingContext) : Prop :=
  ctx.attrib < 16 ∧ ctx.foreground < 16 ∧ ctx.background < 16

instance (ctx : DrawingContext) : Decidable ctx.StyleOK := by
  unfold DrawingContext.StyleOK; infer_instance

/-- The packed 16-bit style word a paint call with this context's style
produces (attribute bits 8..11, foreground 4..7, background 0..3). -/
def DrawingContext.packedStyle (ctx : DrawingContext) : Nat :=
  (ctx.attrib <<< 8) ||| ((ctx.foreground <<< 4) ||| ctx.background)

/-- Membership of a coordinate pair in a Rect2 (the clip test of
drawing.py _put_x_y_c and the iteration domain of fill). -/
def Rect2.contains (r : Rect2) (x y : Int) : Prop :=
  r.x1 ≤ x ∧ x < r.x2 ∧ r.y1 ≤ y ∧ y < r.y2

instance (r : Rect2) (x y : Int) : Decidable (r.contains x y) := by
  unfold Rect2.contains; infer_instance

/-- Modelled from the spec: events.py is not under src/ (only its
importers are).  An Event is a tagged union of a resize notification
carrying the new Size and a keyboard notification carrying the key of
its KeyboardData payload (the mouse variant is unused by the claims). -/
inductive Event where
  | resize (size : Size)
  | keyboard (key : Char)
deriving DecidableEq, Repr

/-- The abstract Display interface used by AbstractDisplay.run
(display.py): display state of type delta, termination values of type
V.  wait_for_event may raise StopIteration (the .error case) whose
payload is args[0] when the exception carries arguments and none when it
does not. -/
structure DisplayOps (δ V : Type) where
  get_display_size : δ → Size
  wait_for_event : δ → Except (Option V) (Event × δ)
  display_image : δ → TextImage → δ

/-- An Application (abc.py IApplication, external collaborator):
consume_event over application state sigma, which may raise StopIteration
with an optional carried value. -/
def AppFun (σ V : Type) : Type :=
  σ → Event → Except (Option V) (TextImage × σ)

/-- The while-True part of display.py AbstractDisplay.run, fuelled: each
round waits for an event and feeds it to the application; StopIteration
from either call returns exc.args[0] when present and ends the loop
valuelessly otherwise; on success the returned image is displayed and
the loop repeats.  none is fuel exhaustion, never reached in the claims'
finite scenarios. -/
def runAux {δ σ V : Type} (ops : DisplayOps δ V) (app : AppFun σ V) :
    Nat → δ → σ → Option (Option V × δ × σ)
  | 0, _, _ => none
  | Nat.succ fuel, d, s =>
    match ops.wait_for_event d with
    | .error args => some (args, d, s)
    | .ok (event, d1) =>
      match app s event with
      | .error args => some (args, d1, s)
      | .ok (image, s1) => runAux ops app fuel (ops.display_image d1 image) s1

/-- display.py AbstractDisplay.run: deliver a synthetic resize event with
the current display size; if the application raises StopIteration there,
return None at once (the first-call handler is a bare return, so any
carried value is discarded and nothing is displayed); otherwise display
the returned image and enter the event loop. -/
def DisplayOps.run {δ σ V : Type} (ops : DisplayOps δ V) (app : AppFun σ V)
    (fuel : Nat) (d : δ) (s : σ) : Option (Option V × δ × σ) :=
  match app s (Event.resize (ops.get_display_size d)) with
  | .error _ => some (none, d, s)
  | .ok (image, s1) => runAux ops app fuel (ops.display_image d image) s1

/-- display.py TestDisplay state: a log of displayed images, the
configured size and the pending FIFO event queue. -/
structure TestDisplay where
  screen_log : List TextImage
  size : Size
  events : List Event
deriving DecidableEq, Repr

/-- display.py TestDisplay.__init__. -/
def TestDisplay.init (size : Size) : TestDisplay :=
  { screen_log := [], size := size, events := [] }

/-- display.py TestDisplay.inject_event: append to the FIFO queue. -/
def TestDisplay.inject_event (d : TestDisplay) (e : Event) : TestDisplay :=
  { d with events := d.events ++ [e] }

/-- display.py TestDisplay as a DisplayOps: display_image appends a deep
copy of the image (images are immutable values here, so the copy is the
value itself) to screen_log; wait_for_event pops the queue head and
raises argument-less StopIteration (.error none) when the queue is
empty. -/
def TestDisplay.ops (V : Type) : DisplayOps TestDisplay V :=
  { get_display_size := fun d => d.size
    wait_for_event := fun d =>
      match d.events with
      | [] => .error none
      | e :: rest => .ok (e, { d with events := rest })
    display_image := fun d image =>
      { d with screen_log := d.screen_log ++ [image] } }

/-- Python list/array slicing l[a:b] for non-negative bounds: clamps to
the list, never raises. -/
def pySlice {α : Type} (l : List α) (a b : Int) : List α :=
  ((l.drop a.toNat).take (b - a).toNat)

/-- display.py PrintDisplay state: its own screen image, built from the
configured size (default Size(80, 25)). -/
structure PrintDisplay where
  screen : TextImage
deriving DecidableEq, Repr

/-- display.py PrintDisplay.__init__. -/
def PrintDisplay.init (size : Size) : PrintDisplay :=
  { screen := mkTextImage size }

/-- display.py PrintDisplay.display_image, with the printed frame and
lines modelled as the returned list of character lines: the top frame,
then for each y in range(height) the slice
image.text_buffer[y*width : (y+1)*width] between pipe characters, then
the bottom frame — where width and height are THE DISPLAY'S OWN
configured dimensions, not the image's. -/
def PrintDisplay.display_image (d : PrintDisplay) (image : TextImage) :
    List (List Char) :=
  (['/'] ++ List.replicate d.screen.size.width.toNat '=' ++ ['\\'])
    :: ((intRange 0 d.screen.size.height).map (fun y =>
          ['|'] ++ pySlice image.text_buffer (y * d.screen.size.width)
            ((y + 1) * d.screen.size.width) ++ ['|']))
    ++ [['\\'] ++ List.replicate d.screen.size.width.toNat '=' ++ ['/']]

/-- display.py CursesDisplay._pair_index: the color-pair slot for a
foreground/background pair of base colors. -/
def CursesDisplay.pair_index (fg bg : Int) : Int :=
  bg * 8 + 7 - fg

/-- The paintability invariant every context the repository constructs
enjoys: 4-bit style fields, a well-formed image, and a clip rectangle
contained in the buffer bounds. -/
def DrawingContext.ClipSafe (ctx : DrawingContext) : Prop :=
  ∀ x y, ctx.clip.contains x y → ctx.image.inBounds x y

/-- The test-backend display of the run-loop scenario: size (10, 5) with
the single pre-loaded event Keyboard('a'). -/
def scnDisplay : TestDisplay :=
  (TestDisplay.init ⟨10, 5⟩).inject_event (Event.keyboard 'a')

/-- An application that raises argument-less StopIteration on every
delivery, in particular on the first synthetic resize. -/
def appTerminate : AppFun Unit Nat :=
  fun _ _ => Except.error none

/-- An application that returns an image (of the display size) on every
delivery. -/
def appRender : AppFun Unit Nat :=
  fun _ _ => Except.ok (mkTextImage ⟨10, 5⟩, ())

/-- An application that raises StopIteration carrying the exit value 42
on every delivery, in particular on the first synthetic resize. -/
def appExitValue : AppFun Unit Nat :=
  fun _ _ => Except.error (some 42)

/-- A display whose wait_for_event immediately raises StopIteration
carrying the exit value 7. -/
def stopValueOps : DisplayOps Unit Nat :=
  { get_display_size := fun _ => ⟨1, 1⟩
    wait_for_event := fun _ => Except.error (some 7)
    display_image := fun d _ => d }

/-- A display whose wait_for_event always yields a keyboard event. -/
def oneKeyOps : DisplayOps Unit Nat :=
  { get_display_size := fun _ => ⟨1, 1⟩
    wait_for_event := fun _ => Except.ok (Event.keyboard 'x', ())
    display_image := fun d _ => d }

/-- A 2 by 2 image whose drawing context gets a clip rectangle sticking
out of the buffer: Rect2(0, 0, 3, 2) on a 2 by 2 buffer. -/
def ctxWideClip : DrawingContext :=
  (DrawingContext.init (mkTextImage ⟨2, 2⟩)).clip_to 0 0 3 2

/-- A full-clip context on a 5 by 3 image with the paint offset moved to
(2, 0). -/
def ctxAt20 : DrawingContext :=
  (DrawingContext.init (mkTextImage ⟨5, 3⟩)).move_to 2 0

/-- A context on a 2 by 2 image whose clip Rect2(0, 0, 5, 5) extends
outside the buffer, with the offset at the out-of-buffer column (2, 0). -/
def ctxOobOffset : DrawingContext :=
  ((DrawingContext.init (mkTextImage ⟨2, 2⟩)).clip_to 0 0 5 5).move_to 2 0

/-- A 3 by 1 image holding the characters A B C, used against a display
of a different configured size. -/
def imgABC : TextImage :=
  { size := ⟨3, 1⟩, text_buffer := ['A', 'B', 'C'], attribute_buffer := [0, 0, 0] }

/-! Helper lemmas. -/

theorem intRange_mem {a b x : Int} : x ∈ intRange a b ↔ a ≤ x ∧ x < b := by
  simp only [intRange, List.mem_map, List.mem_range]
  constructor
  · rintro ⟨k, hk, rfl⟩
    omega
  · intro h
    exact ⟨(x - a).toNat, by omega, by omega⟩

theorem intRange_length (a b : Int) : (intRange a b).length = (b - a).toNat := by
  unfold intRange
  rw [List.length_map, List.length_range]

theorem store16_eq_some {v : Nat} (h : v < 65536) : store16 v = some v :=
  if_pos h

theorem pack_shift4_lt : ∀ a, a < 16 → a <<< 4 < 65536 := by decide

theorem pack_or4_lt : ∀ a, a < 16 → ∀ f, f < 16 → (a <<< 4) ||| f < 256 := by
  decide

theorem pack_eq :
    ∀ a, a < 16 → ∀ f, f < 16 → ∀ b, b < 16 →
      (((a <<< 4) ||| f) <<< 4) ||| b = (a <<< 8) ||| ((f <<< 4) ||| b) := by
  decide

theorem pack_lt :
    ∀ a, a < 16 → ∀ f, f < 16 → ∀ b, b < 16 →
      (a <<< 8) ||| ((f <<< 4) ||| b) < 65536 := by
  decide

theorem flatIdx_bounds {w h x y : Int} (hx : 0 ≤ x) (hxw : x < w)
    (hy : 0 ≤ y) (hyh : y < h) : 0 ≤ x + y * w ∧ x + y * w < w * h := by
  have hw : 0 ≤ w := le_trans hx hxw.le
  have h1 : y * w ≤ (h - 1) * w := mul_le_mul_of_nonneg_right (by omega) hw
  have h2 : 0 ≤ y * w := mul_nonneg hy hw
  have h3 : (h - 1) * w = h * w - w := by ring
  have h4 : w * h = h * w := mul_comm w h
  constructor
  · linarith
  · linarith

theorem flatIdx_inj {w x1 y1 x2 y2 : Int} (h1 : 0 ≤ x1) (h2 : x1 < w)
    (h3 : 0 ≤ x2) (h4 : x2 < w) (heq : x1 + y1 * w = x2 + y2 * w) :
    x1 = x2 ∧ y1 = y2 := by
  have e1 : (x1 + y1 * w) % w = x1 % w := Int.add_mul_emod_self
  have e2 : (x2 + y2 * w) % w = x2 % w := Int.add_mul_emod_self
  rw [Int.emod_eq_of_lt h1 h2] at e1
  rw [Int.emod_eq_of_lt h3 h4] at e2
  rw [heq] at e1
  have hx : x1 = x2 := e1.symm.trans e2
  refine ⟨hx, ?_⟩
  have hmul : y1 * w = y2 * w := by
    subst hx
    linarith
  exact mul_right_cancel₀ (by omega : w ≠ 0) hmul

/-- Evaluating TextImage.put on in-bounds coordinates and in-range style
fields: the character is stored at the flat index and the packed style
word has the attribute bits at 8..11, the foreground at 4..7 and the
background at 0..3. -/
theorem TextImage.put_eq_some {img : TextImage} {x y : Int} {c : Char}
    {a f b : Nat} (hin : img.inBounds x y)
    (ha : a < 16) (hf : f < 16) (hb : b < 16) :
    img.put x y c a f b = some { img with
      text_buffer := img.text_buffer.set (x + y * img.size.width).toNat c
      attribute_buffer := img.attribute_buffer.set
        (x + y * img.size.width).toNat ((a <<< 8) ||| ((f <<< 4) ||| b)) } := by
  obtain ⟨h1, h2, h3, h4⟩ := hin
  have e0 : store16 a = some a := store16_eq_some (by omega)
  have e1 : store16 (a <<< 4) = some (a <<< 4) :=
    store16_eq_some (pack_shift4_lt a ha)
  have hv2 : (a <<< 4) ||| f < 256 := pack_or4_lt a ha f hf
  have e2 : store16 ((a <<< 4) ||| f) = some ((a <<< 4) ||| f) :=
    store16_eq_some (by omega)
  have e3 : store16 (((a <<< 4) ||| f) <<< 4) =
      some (((a <<< 4) ||| f) <<< 4) :=
    store16_eq_some (by rw [Nat.shiftLeft_eq]; omega)
  have e4 : store16 ((((a <<< 4) ||| f) <<< 4) ||| b) =
      some ((a <<< 8) ||| ((f <<< 4) ||| b)) := by
    rw [pack_eq a ha f hf b hb]
    exact store16_eq_some (pack_lt a ha f hf b hb)
  unfold TextImage.put
  rw [if_pos ⟨h1, h2, h3, h4⟩]
  simp only [TextImage.width, bind, Option.bind, e0, e1, e2, e3, e4]

theorem pyGetElem_nonneg {α : Type} (l : List α) {i : Int} (h : 0 ≤ i) :
    pyGetElem l i = l[i.toNat]? := by
  unfold pyGetElem
  rw [if_pos h]

/-- Full description of a successful TextImage.put: the put succeeds, the
size and well-formedness are preserved, reading back the written cell
yields the character and the packed style word, and every other
in-bounds cell is unchanged. -/
theorem TextImage.put_spec {img : TextImage} {x y : Int} {c : Char}
    {a f b : Nat} (hWF : img.WF) (hin : img.inBounds x y)
    (ha : a < 16) (hf : f < 16) (hb : b < 16) :
    ∃ img2,
      img.put x y c a f b = some img2 ∧
      img2.size = img.size ∧ img2.WF ∧
      img2.get x y = some ⟨c, (a <<< 8) ||| ((f <<< 4) ||| b)⟩ ∧
      (∀ x0 y0, img.inBounds x0 y0 → ¬(x0 = x ∧ y0 = y) →
        img2.get x0 y0 = img.get x0 y0) := by
  obtain ⟨hw, hh, hlt, hla⟩ := hWF
  obtain ⟨hx0, hxw, hy0, hyh⟩ := hin
  obtain ⟨hi0, hiN⟩ := flatIdx_bounds hx0 hxw hy0 hyh
  have hidxt : (x + y * img.size.width).toNat < img.text_buffer.length := by
    rw [hlt]; omega
  have hidxa : (x + y * img.size.width).toNat < img.attribute_buffer.length := by
    rw [hla]; omega
  refine ⟨_, TextImage.put_eq_some ⟨hx0, hxw, hy0, hyh⟩ ha hf hb,
    rfl, ⟨hw, hh, by simpa using hlt, by simpa using hla⟩, ?_, ?_⟩
  · unfold TextImage.get
    rw [pyGetElem_nonneg _ hi0, pyGetElem_nonneg _ hi0]
    simp only [List.getElem?_set_eq_of_lt _ hidxt,
      List.getElem?_set_eq_of_lt _ hidxa, Option.bind, bind]
  · intro x0 y0 hin0 hne
    obtain ⟨hx00, hx0w, hy00, hy0h⟩ := hin0
    obtain ⟨hj0, hjN⟩ := flatIdx_bounds hx00 hx0w hy00 hy0h
    have hjne : (x + y * img.size.width).toNat ≠
        (x0 + y0 * img.size.width).toNat := by
      intro hcontra
      have : x + y * img.size.width = x0 + y0 * img.size.width := by omega
      obtain ⟨hxx, hyy⟩ := flatIdx_inj hx0 hxw hx00 hx0w this
      exact hne ⟨hxx.symm, hyy.symm⟩
    unfold TextImage.get
    rw [pyGetElem_nonneg _ hj0, pyGetElem_nonneg _ hj0,
      pyGetElem_nonneg _ hj0, pyGetElem_nonneg _ hj0]
    simp only [List.getElem?_set_ne hjne]

/-- A failed TextImage.put: out-of-bounds coordinates make the assertion
fail before anything is written. -/
theorem TextImage.put_none {img : TextImage} {x y : Int} {c : Char}
    {a f b : Nat} (hnot : ¬ img.inBounds x y) :
    img.put x y c a f b = none := by
  unfold TextImage.put
  rw [if_neg]
  exact fun hcon => hnot hcon

/-- The non-image state a paint call leaves untouched, together with the
image size. -/
def PreservesCtx (ctx ctx2 : DrawingContext) : Prop :=
  ctx2.image.size = ctx.image.size ∧ ctx2.offset = ctx.offset ∧
    ctx2.clip = ctx.clip ∧ ctx2.attrib = ctx.attrib ∧
    ctx2.foreground = ctx.foreground ∧ ctx2.background = ctx.background

theorem PreservesCtx.refl (ctx : DrawingContext) : PreservesCtx ctx ctx :=
  ⟨rfl, rfl, rfl, rfl, rfl, rfl⟩

theorem PreservesCtx.comp {c1 c2 c3 : DrawingContext}
    (h1 : PreservesCtx c1 c2) (h2 : PreservesCtx c2 c3) :
    PreservesCtx c1 c3 :=
  ⟨h2.1.trans h1.1, h2.2.1.trans h1.2.1, h2.2.2.1.trans h1.2.2.1,
    h2.2.2.2.1.trans h1.2.2.2.1, h2.2.2.2.2.1.trans h1.2.2.2.2.1,
    h2.2.2.2.2.2.trans h1.2.2.2.2.2⟩

theorem styleOK_of_preserves {c1 c2 : DrawingContext}
    (hp : PreservesCtx c1 c2) (hS : c1.StyleOK) : c2.StyleOK := by
  obtain ⟨-, -, -, h4, h5, h6⟩ := hp
  unfold DrawingContext.StyleOK at hS ⊢
  rw [h4, h5, h6]
  exact hS

theorem packedStyle_of_preserves {c1 c2 : DrawingContext}
    (hp : PreservesCtx c1 c2) : c2.packedStyle = c1.packedStyle := by
  obtain ⟨-, -, -, h4, h5, h6⟩ := hp
  unfold DrawingContext.packedStyle
  rw [h4, h5, h6]

theorem inBounds_of_size_eq {i1 i2 : TextImage} (h : i2.size = i1.size)
    (x y : Int) : i2.inBounds x y ↔ i1.inBounds x y := by
  unfold TextImage.inBounds
  rw [h]

/-- A successful single-cell paint with the context's current style. -/
theorem DrawingContext.putCell_spec {ctx : DrawingContext} {x y : Int}
    {c : Char} (hS : ctx.StyleOK) (hWF : ctx.image.WF)
    (hin : ctx.image.inBounds x y) :
    ∃ ctx2,
      ctx.putCell x y c = some ctx2 ∧
      PreservesCtx ctx ctx2 ∧ ctx2.image.WF ∧
      ctx2.image.get x y = some ⟨c, ctx.packedStyle⟩ ∧
      (∀ x0 y0, ctx.image.inBounds x0 y0 → ¬(x0 = x ∧ y0 = y) →
        ctx2.image.get x0 y0 = ctx.image.get x0 y0) := by
  obtain ⟨ha, hf, hb⟩ := hS
  obtain ⟨img2, hput, hsz, hWF2, hget, hother⟩ :=
    TextImage.put_spec hWF hin ha hf hb
  refine ⟨{ ctx with image := img2 }, ?_, ⟨hsz, rfl, rfl, rfl, rfl, rfl⟩,
    hWF2, ?_, hother⟩
  · unfold DrawingContext.putCell
    rw [hput]
  · unfold DrawingContext.packedStyle
    exact hget

/-- A single-cell paint at out-of-bounds coordinates faults on the put
assertion. -/
theorem DrawingContext.putCell_none {ctx : DrawingContext} {x y : Int}
    {c : Char} (hnot : ¬ ctx.image.inBounds x y) :
    ctx.putCell x y c = none := by
  unfold DrawingContext.putCell
  rw [TextImage.put_none hnot]

/-- The inner column loop of fill: all coordinates in bounds, so every
put succeeds and exactly the column cells listed get the character. -/
theorem fill_col_ok (x : Int) (c : Char) :
    ∀ (ys : List Int) (ctx : DrawingContext), ctx.StyleOK → ctx.image.WF →
      (∀ y ∈ ys, ctx.image.inBounds x y) →
      ∃ ctx2,
        ys.foldlM (fun ct y => ct.putCell x y c) ctx = some ctx2 ∧
        PreservesCtx ctx ctx2 ∧ ctx2.image.WF ∧
        (∀ x0 y0, ctx.image.inBounds x0 y0 →
          ctx2.image.get x0 y0 =
            if x0 = x ∧ y0 ∈ ys then some ⟨c, ctx.packedStyle⟩
            else ctx.image.get x0 y0) := by
  intro ys
  induction ys with
  | nil =>
    intro ctx hS hWF _hys
    refine ⟨ctx, rfl, PreservesCtx.refl ctx, hWF, ?_⟩
    intro x0 y0 _h
    simp
  | cons y ys ih =>
    intro ctx hS hWF hys
    obtain ⟨ctx1, hput, hp1, hWF1, hget, hother⟩ :=
      DrawingContext.putCell_spec hS hWF (hys y (List.mem_cons_self y ys))
    have hS1 : ctx1.StyleOK := styleOK_of_preserves hp1 hS
    have hys1 : ∀ y0 ∈ ys, ctx1.image.inBounds x y0 := by
      intro y0 hy0
      rw [inBounds_of_size_eq hp1.1]
      exact hys y0 (List.mem_cons_of_mem y hy0)
    obtain ⟨ctx2, hfold, hp2, hWF2, hdesc⟩ := ih ctx1 hS1 hWF1 hys1
    refine ⟨ctx2, ?_, hp1.comp hp2, hWF2, ?_⟩
    · rw [List.foldlM_cons, hput]
      simpa using hfold
    · intro x0 y0 hin0
      have hin1 : ctx1.image.inBounds x0 y0 :=
        (inBounds_of_size_eq hp1.1 x0 y0).mpr hin0
      have hstep := hdesc x0 y0 hin1
      rw [packedStyle_of_preserves hp1] at hstep
      by_cases hxx : x0 = x
      · by_cases hmem : y0 ∈ ys
        · rw [hstep, if_pos ⟨hxx, hmem⟩, if_pos ⟨hxx, List.mem_cons_of_mem y hmem⟩]
        · by_cases hyy : y0 = y
          · rw [hstep, if_neg (by tauto), if_pos ⟨hxx, by simp [hyy]⟩]
            subst hxx; subst hyy
            exact hget
          · rw [hstep, if_neg (by tauto),
              if_neg (by simp [List.mem_cons]; tauto)]
            exact hother x0 y0 hin0 (by tauto)
      · rw [hstep, if_neg (by tauto), if_neg (by tauto)]
        exact hother x0 y0 hin0 (by tauto)

/-- The inner column loop of fill faults when any listed coordinate is
out of bounds. -/
theorem fill_col_none (x : Int) (c : Char) :
    ∀ (ys : List Int) (ctx : DrawingContext), ctx.StyleOK → ctx.image.WF →
      (∃ y ∈ ys, ¬ ctx.image.inBounds x y) →
      ys.foldlM (fun ct y => ct.putCell x y c) ctx = none := by
  intro ys
  induction ys with
  | nil =>
    intro ctx _ _ hbad
    simp at hbad
  | cons y ys ih =>
    intro ctx hS hWF hbad
    by_cases hin : ctx.image.inBounds x y
    · obtain ⟨ctx1, hput, hp1, hWF1, -, -⟩ :=
        DrawingContext.putCell_spec hS hWF hin
      rw [List.foldlM_cons, hput]
      have hbad1 : ∃ y0 ∈ ys, ¬ ctx1.image.inBounds x y0 := by
        obtain ⟨y0, hy0, hnot⟩ := hbad
        rcases List.mem_cons.mp hy0 with h | h
        · subst h; exact absurd hin hnot
        · exact ⟨y0, h, by rw [inBounds_of_size_eq hp1.1]; exact hnot⟩
      simpa using ih ctx1 (styleOK_of_preserves hp1 hS) hWF1 hbad1
    · rw [List.foldlM_cons, DrawingContext.putCell_none hin]
      rfl

/-- The outer row loop of fill when every targeted coordinate is in
bounds: the whole clip-by-column region gets the character. -/
theorem fill_row_ok (c : Char) (r : Rect2) :
    ∀ (xs : List Int) (ctx : DrawingContext), ctx.clip = r →
      ctx.StyleOK → ctx.image.WF →
      (∀ x ∈ xs, ∀ y : Int, r.y1 ≤ y → y < r.y2 → ctx.image.inBounds x y) →
      ∃ ctx2,
        xs.foldlM (fun ct x => (intRange ct.clip.y1 ct.clip.y2).foldlM
          (fun ct2 y => ct2.putCell x y c) ct) ctx = some ctx2 ∧
        PreservesCtx ctx ctx2 ∧ ctx2.image.WF ∧
        (∀ x0 y0, ctx.image.inBounds x0 y0 →
          ctx2.image.get x0 y0 =
            if x0 ∈ xs ∧ r.y1 ≤ y0 ∧ y0 < r.y2 then some ⟨c, ctx.packedStyle⟩
            else ctx.image.get x0 y0) := by
  intro xs
  induction xs with
  | nil =>
    intro ctx _hclip hS hWF _hxs
    refine ⟨ctx, rfl, PreservesCtx.refl ctx, hWF, ?_⟩
    intro x0 y0 _h
    simp
  | cons x xs ih =>
    intro ctx hclip hS hWF hxs
    have hcol : ∀ y ∈ intRange r.y1 r.y2, ctx.image.inBounds x y := by
      intro y hy
      obtain ⟨h1, h2⟩ := intRange_mem.mp hy
      exact hxs x (List.mem_cons_self x xs) y h1 h2
    obtain ⟨ctx1, hfold1, hp1, hWF1, hdesc1⟩ :=
      fill_col_ok x c (intRange r.y1 r.y2) ctx hS hWF hcol
    have hclip1 : ctx1.clip = r := hp1.2.2.1.trans hclip
    have hS1 : ctx1.StyleOK := styleOK_of_preserves hp1 hS
    have hxs1 : ∀ x0 ∈ xs, ∀ y : Int, r.y1 ≤ y → y < r.y2 →
        ctx1.image.inBounds x0 y := by
      intro x0 hx0 y h1 h2
      rw [inBounds_of_size_eq hp1.1]
      exact hxs x0 (List.mem_cons_of_mem x hx0) y h1 h2
    obtain ⟨ctx2, hfold2, hp2, hWF2, hdesc2⟩ := ih ctx1 hclip1 hS1 hWF1 hxs1
    refine ⟨ctx2, ?_, hp1.comp hp2, hWF2, ?_⟩
    · rw [List.foldlM_cons, hclip, hfold1]
      simpa using hfold2
    · intro x0 y0 hin0
      have hin1 : ctx1.image.inBounds x0 y0 :=
        (inBounds_of_size_eq hp1.1 x0 y0).mpr hin0
      have hstep := hdesc2 x0 y0 hin1
      rw [packedStyle_of_preserves hp1] at hstep
      have hcolget := hdesc1 x0 y0 hin0
      by_cases hyr : r.y1 ≤ y0 ∧ y0 < r.y2
      · by_cases hmem : x0 ∈ xs
        · rw [hstep, if_pos ⟨hmem, hyr⟩,
            if_pos ⟨List.mem_cons_of_mem x hmem, hyr⟩]
        · by_cases hxx : x0 = x
          · rw [hstep, if_neg (by tauto), hcolget,
              if_pos ⟨hxx, intRange_mem.mpr hyr⟩,
              if_pos ⟨by simp [hxx], hyr⟩]
          · rw [hstep, if_neg (by tauto), hcolget,
              if_neg (fun hcon => hxx hcon.1),
              if_neg (by simp [List.mem_cons]; tauto)]
      · have hnotr : ∀ p : Prop, ¬ (p ∧ r.y1 ≤ y0 ∧ y0 < r.y2) :=
          fun p hcon => hyr hcon.2
        rw [hstep, if_neg (hnotr _), hcolget,
          if_neg (fun hcon => hyr (intRange_mem.mp hcon.2)), if_neg (hnotr _)]

/-- The outer row loop of fill faults as soon as the clip's column range
hits an out-of-bounds coordinate. -/
theorem fill_row_none (c : Char) (r : Rect2) :
    ∀ (xs : List Int) (ctx : DrawingContext), ctx.clip = r →
      ctx.StyleOK → ctx.image.WF →
      (∃ x ∈ xs, ∃ y : Int, r.y1 ≤ y ∧ y < r.y2 ∧ ¬ ctx.image.inBounds x y) →
      xs.foldlM (fun ct x => (intRange ct.clip.y1 ct.clip.y2).foldlM
        (fun ct2 y => ct2.putCell x y c) ct) ctx = none := by
  intro xs
  induction xs with
  | nil =>
    intro ctx _ _ _ hbad
    simp at hbad
  | cons x xs ih =>
    intro ctx hclip hS hWF hbad
    by_cases hcolbad : ∃ y : Int, r.y1 ≤ y ∧ y < r.y2 ∧ ¬ ctx.image.inBounds x y
    · obtain ⟨y, h1, h2, hnot⟩ := hcolbad
      rw [List.foldlM_cons, hclip,
        fill_col_none x c (intRange r.y1 r.y2) ctx hS hWF
          ⟨y, intRange_mem.mpr ⟨h1, h2⟩, hnot⟩]
      rfl
    · have hcol : ∀ y ∈ intRange r.y1 r.y2, ctx.image.inBounds x y := by
        intro y hy
        obtain ⟨h1, h2⟩ := intRange_mem.mp hy
        by_contra hnot
        exact hcolbad ⟨y, h1, h2, hnot⟩
      obtain ⟨ctx1, hfold1, hp1, hWF1, -⟩ :=
        fill_col_ok x c (intRange r.y1 r.y2) ctx hS hWF hcol
      rw [List.foldlM_cons, hclip, hfold1]
      have hbad1 : ∃ x0 ∈ xs, ∃ y : Int, r.y1 ≤ y ∧ y < r.y2 ∧
          ¬ ctx1.image.inBounds x0 y := by
        obtain ⟨x0, hx0, y, h1, h2, hnot⟩ := hbad
        rcases List.mem_cons.mp hx0 with h | h
        · subst h
          exact absurd ⟨y, h1, h2, hnot⟩ hcolbad
        · exact ⟨x0, h, y, h1, h2, by
            rw [inBounds_of_size_eq hp1.1]; exact hnot⟩
      simpa using ih ctx1 (hp1.2.2.1.trans hclip)
        (styleOK_of_preserves hp1 hS) hWF1 hbad1

/-- fill succeeds exactly when the whole clip rectangle lies within the
buffer, and then writes the character with the current style to every
clip cell, leaving the rest untouched. -/
theorem fill_spec_ok {ctx : DrawingContext} {c : Char}
    (hS : ctx.StyleOK) (hWF : ctx.image.WF)
    (hsub : ∀ x y, ctx.clip.contains x y → ctx.image.inBounds x y) :
    ∃ ctx2, ctx.fill c = some ctx2 ∧ PreservesCtx ctx ctx2 ∧
      ctx2.image.WF ∧
      (∀ x0 y0, ctx.image.inBounds x0 y0 →
        ctx2.image.get x0 y0 =
          if ctx.clip.contains x0 y0 then some ⟨c, ctx.packedStyle⟩
          else ctx.image.get x0 y0) := by
  have hxs : ∀ x ∈ intRange ctx.clip.x1 ctx.clip.x2, ∀ y : Int,
      ctx.clip.y1 ≤ y → y < ctx.clip.y2 → ctx.image.inBounds x y := by
    intro x hx y h1 h2
    obtain ⟨hx1, hx2⟩ := intRange_mem.mp hx
    exact hsub x y ⟨hx1, hx2, h1, h2⟩
  obtain ⟨ctx2, hfold, hp, hWF2, hdesc⟩ :=
    fill_row_ok c ctx.clip (intRange ctx.clip.x1 ctx.clip.x2) ctx rfl hS hWF hxs
  refine ⟨ctx2, hfold, hp, hWF2, ?_⟩
  intro x0 y0 hin0
  rw [hdesc x0 y0 hin0]
  refine if_congr ?_ rfl rfl
  rw [intRange_mem]
  unfold Rect2.contains
  tauto

/-- fill faults (on the put assertion) whenever the clip rectangle
contains a coordinate outside the buffer. -/
theorem fill_spec_none {ctx : DrawingContext} {c : Char}
    (hS : ctx.StyleOK) (hWF : ctx.image.WF)
    (hbad : ∃ x y, ctx.clip.contains x y ∧ ¬ ctx.image.inBounds x y) :
    ctx.fill c = none := by
  obtain ⟨x, y, ⟨h1, h2, h3, h4⟩, hnot⟩ := hbad
  exact fill_row_none c ctx.clip (intRange ctx.clip.x1 ctx.clip.x2) ctx rfl
    hS hWF ⟨x, intRange_mem.mpr ⟨h1, h2⟩, y, h3, h4, hnot⟩

theorem clipSafe_of_preserves {c1 c2 : DrawingContext}
    (hp : PreservesCtx c1 c2) (hCS : c1.ClipSafe) : c2.ClipSafe := by
  intro x y hc
  rw [inBounds_of_size_eq hp.1]
  apply hCS
  rw [← hp.2.2.1]
  exact hc

/-- A clip-tested single-character paint never faults when the clip
rectangle is contained in the buffer, and an out-of-bounds coordinate is
dropped with the context unchanged. -/
theorem put_x_y_c_ok {ctx : DrawingContext} (x y : Int) (c : Char)
    (hS : ctx.StyleOK) (hWF : ctx.image.WF) (hCS : ctx.ClipSafe) :
    ∃ ctx2, ctx.put_x_y_c x y c = some ctx2 ∧ PreservesCtx ctx ctx2 ∧
      ctx2.image.WF ∧
      (¬ ctx.image.inBounds x y → ctx2 = ctx) := by
  unfold DrawingContext.put_x_y_c
  by_cases hc : ctx.clip.x1 ≤ x ∧ x < ctx.clip.x2 ∧
      ctx.clip.y1 ≤ y ∧ y < ctx.clip.y2
  · rw [if_pos hc]
    have hin : ctx.image.inBounds x y := hCS x y hc
    obtain ⟨ctx2, hput, hp, hWF2, -, -⟩ :=
      DrawingContext.putCell_spec hS hWF hin
    exact ⟨ctx2, hput, hp, hWF2, fun hnot => absurd hin hnot⟩
  · rw [if_neg hc]
    exact ⟨ctx, rfl, PreservesCtx.refl ctx, hWF, fun _ => rfl⟩

/-- The character loop of _put_line never faults under a buffer-contained
clip. -/
theorem put_enum_ok :
    ∀ (ps : List (Nat × Char)) (ctx : DrawingContext), ctx.StyleOK →
      ctx.image.WF → ctx.ClipSafe →
      ∃ ctx2,
        ps.foldlM (fun ct p => ct.put_dx_dy_c (p.1 : Int) 0 p.2) ctx =
          some ctx2 ∧
        PreservesCtx ctx ctx2 ∧ ctx2.image.WF ∧ ctx2.ClipSafe := by
  intro ps
  induction ps with
  | nil =>
    intro ctx hS hWF hCS
    exact ⟨ctx, rfl, PreservesCtx.refl ctx, hWF, hCS⟩
  | cons p ps ih =>
    intro ctx hS hWF hCS
    obtain ⟨ctx1, hput, hp1, hWF1, -⟩ :=
      put_x_y_c_ok (ctx.offset.x + (p.1 : Int)) (ctx.offset.y + 0) p.2 hS hWF hCS
    have hput1 : ctx.put_dx_dy_c (p.1 : Int) 0 p.2 = some ctx1 := by
      unfold DrawingContext.put_dx_dy_c
      exact hput
    obtain ⟨ctx2, hfold, hp2, hWF2, hCS2⟩ := ih ctx1
      (styleOK_of_preserves hp1 hS) hWF1 (clipSafe_of_preserves hp1 hCS)
    refine ⟨ctx2, ?_, hp1.comp hp2, hWF2, hCS2⟩
    rw [List.foldlM_cons, hput1]
    simpa using hfold

theorem splitlinesGo_no_nl :
    ∀ (s acc : List Char), '\n' ∉ acc →
      ∀ line ∈ splitlinesGo acc s, '\n' ∉ line := by
  intro s
  induction s with
  | nil =>
    intro acc hacc line hline
    unfold splitlinesGo at hline
    simp at hline
    subst hline
    simpa using hacc
  | cons ch rest ih =>
    intro acc hacc line hline
    unfold splitlinesGo at hline
    by_cases hch : ch = '\n'
    · rw [if_pos hch] at hline
      rcases List.mem_cons.mp hline with h | h
      · subst h
        simpa using hacc
      · by_cases hrest : rest.isEmpty
        · rw [if_pos hrest] at h
          simp at h
        · rw [if_neg hrest] at h
          exact ih [] (by simp) line h
    · rw [if_neg hch] at hline
      refine ih (ch :: acc) ?_ line hline
      simp only [List.mem_cons]
      rintro (h | h)
      · exact hch h.symm
      · exact hacc h

theorem splitlines_no_nl (s : List Char) :
    ∀ line ∈ splitlines s, '\n' ∉ line := by
  intro line hline
  unfold splitlines at hline
  by_cases hs : s.isEmpty
  · rw [if_pos hs] at hline
    simp at hline
  · rw [if_neg hs] at hline
    exact splitlinesGo_no_nl s [] (by simp) line hline

theorem put_line_ok {ctx : DrawingContext} {text : List Char}
    (hS : ctx.StyleOK) (hWF : ctx.image.WF) (hCS : ctx.ClipSafe)
    (hnl : '\n' ∉ text) :
    ∃ ctx2, ctx.put_line text = some ctx2 ∧ PreservesCtx ctx ctx2 ∧
      ctx2.image.WF ∧ ctx2.ClipSafe := by
  unfold DrawingContext.put_line
  rw [if_neg hnl]
  exact put_enum_ok text.enum ctx hS hWF hCS

theorem move_by_styleOK {ctx : DrawingContext} {dx dy : Int}
    (hS : ctx.StyleOK) : (ctx.move_by dx dy).StyleOK := hS

theorem move_by_clipSafe {ctx : DrawingContext} {dx dy : Int}
    (hCS : ctx.ClipSafe) : (ctx.move_by dx dy).ClipSafe := hCS

/-- The per-line loop of print never faults when every line is free of
embedded line breaks and the clip is contained in the buffer. -/
theorem print_lines_ok :
    ∀ (ls : List (List Char)) (ctx : DrawingContext), ctx.StyleOK →
      ctx.image.WF → ctx.ClipSafe → (∀ l ∈ ls, '\n' ∉ l) →
      ∃ ctx2,
        ls.foldlM
          (fun ctx1 line => do
            let ctx2 ← ctx1.put_line line
            some (ctx2.move_by 0 1)) ctx = some ctx2 := by
  intro ls
  induction ls with
  | nil =>
    intro ctx _ _ _ _
    exact ⟨ctx, rfl⟩
  | cons l ls ih =>
    intro ctx hS hWF hCS hnl
    obtain ⟨ctx1, hline, hp1, hWF1, hCS1⟩ :=
      put_line_ok hS hWF hCS (hnl l (List.mem_cons_self l ls))
    obtain ⟨ctx2, hfold⟩ := ih (ctx1.move_by 0 1)
      (move_by_styleOK (styleOK_of_preserves hp1 hS)) hWF1
      (move_by_clipSafe hCS1)
      (fun l0 hl0 => hnl l0 (List.mem_cons_of_mem l hl0))
    refine ⟨ctx2, ?_⟩
    rw [List.foldlM_cons]
    simp only [hline, Option.bind_eq_bind, Option.bind_some]
    exact hfold

/-- print never faults under a buffer-contained clip. -/
theorem print_all_ok {ctx : DrawingContext} (text : List Char)
    (hS : ctx.StyleOK) (hWF : ctx.image.WF) (hCS : ctx.ClipSafe) :
    ∃ ctx2, ctx.print text = some ctx2 := by
  unfold DrawingContext.print
  exact print_lines_ok (splitlines text) ctx hS hWF hCS (splitlines_no_nl text)

theorem put_line_nil (ctx : DrawingContext) : ctx.put_line [] = some ctx := by
  unfold DrawingContext.put_line
  rw [if_neg (by simp)]
  rfl

theorem splitlines_replicate_nl :
    ∀ n : Nat, splitlines (List.replicate n '\n') = List.replicate n [] := by
  intro n
  induction n with
  | zero => rfl
  | succ m ih =>
    cases m with
    | zero => rfl
    | succ k =>
      have hstep : splitlines (List.replicate (k + 1 + 1) '\n') =
          [] :: splitlines (List.replicate (k + 1) '\n') := by
        rw [List.replicate_succ]
        show splitlinesGo [] ('\n' :: List.replicate (k + 1) '\n') = _
        unfold splitlinesGo
        rw [if_pos rfl, List.replicate_succ]
        rw [if_neg (by simp)]
        rfl
      rw [hstep, ih]
      rfl

/-- The print loop over empty lines: nothing is painted, the offset moves
down one row per line. -/
theorem print_fold_empty :
    ∀ (n : Nat) (ctx : DrawingContext),
      ∃ ctx2,
        (List.replicate n ([] : List Char)).foldlM
          (fun ctx1 line => do
            let ctx2 ← ctx1.put_line line
            some (ctx2.move_by 0 1)) ctx = some ctx2 ∧
        ctx2.image = ctx.image ∧ ctx2.clip = ctx.clip ∧
        ctx2.offset.x = ctx.offset.x ∧ ctx2.offset.y = ctx.offset.y + n := by
  intro n
  induction n with
  | zero =>
    intro ctx
    exact ⟨ctx, rfl, rfl, rfl, rfl, by omega⟩
  | succ m ih =>
    intro ctx
    obtain ⟨ctx2, hfold, himg, hclip, hx, hy⟩ := ih (ctx.move_by 0 1)
    refine ⟨ctx2, ?_, himg, hclip, by simpa [DrawingContext.move_by] using hx, ?_⟩
    · rw [List.replicate_succ, List.foldlM_cons, put_line_nil]
      simpa using hfold
    · rw [hy]
      unfold DrawingContext.move_by
      simp
      omega

/-! Claim theorems. -/

/-- C1: for every in-bounds coordinate and 4-bit style arguments, put
followed by get returns a Cell holding exactly the written character and
the packed 16-bit style word (attr shifted to bits 8..11) or
(foreground shifted to bits 4..7) or (background in bits 0..3). -/
theorem put_get_roundtrip (img : TextImage) (x y : Int) (c : Char)
    (a f b : Nat) (hWF : img.WF)
    (hx : 0 ≤ x) (hxw : x < img.size.width)
    (hy : 0 ≤ y) (hyh : y < img.size.height)
    (ha : a < 16) (hf : f < 16) (hb : b < 16) :
    ∃ img2, img.put x y c a f b = some img2 ∧
      img2.get x y = some ⟨c, (a <<< 8) ||| ((f <<< 4) ||| b)⟩ := by
  obtain ⟨img2, hput, -, -, hget, -⟩ :=
    TextImage.put_spec hWF ⟨hx, hxw, hy, hyh⟩ ha hf hb
  exact ⟨img2, hput, hget⟩

/-- Witness for C1 at a 3 by 2 image, coordinate (1, 1), character Q,
attribute UNDERLINE, bright-green foreground, blue background. -/
theorem put_get_roundtrip_witness :
    ∃ img2, (mkTextImage ⟨3, 2⟩).put 1 1 'Q' 2 10 4 = some img2 ∧
      img2.get 1 1 = some ⟨'Q', (2 <<< 8) ||| ((10 <<< 4) ||| 4)⟩ :=
  put_get_roundtrip (mkTextImage ⟨3, 2⟩) 1 1 'Q' 2 10 4 (by decide)
    (by decide) (by decide) (by decide) (by decide) (by decide) (by decide)
    (by decide)

/-- C8 counterexample: the pair index of foreground 7 on background 0 is
0 (the reserved default slot the setup loop skips), not 7 as claimed. -/
theorem pair_index_fg7_bg0 :
    CursesDisplay.pair_index 7 0 = 0 ∧ ¬ CursesDisplay.pair_index 7 0 = 7 := by
  decide

/-- C8 (amended): the color-pair index is the deterministic formula
background * 8 + 7 - foreground over the base colors; in particular
index(fg=7, bg=0) = 0, index(fg=0, bg=1) = 15 and index(fg=0, bg=0) = 7. -/
theorem pair_index_values :
    (∀ fg bg : Int, CursesDisplay.pair_index fg bg = bg * 8 + 7 - fg) ∧
    CursesDisplay.pair_index 7 0 = 0 ∧
    CursesDisplay.pair_index 0 1 = 15 ∧
    CursesDisplay.pair_index 0 0 = 7 :=
  ⟨fun _ _ => rfl, by decide, by decide, by decide⟩

/-- C2: on a TestDisplay of size (10, 5) pre-loaded with Keyboard('a'),
an application that terminates on the first synthetic resize makes run
return with no image recorded, and an application that renders on every
event makes run record exactly 2 images and then stop valuelessly when
the queue is exhausted. -/
theorem run_test_scenarios :
    (∀ fuel : Nat,
      (TestDisplay.ops Nat).run appTerminate fuel scnDisplay () =
        some (none, scnDisplay, ()) ∧ scnDisplay.screen_log = []) ∧
    (∃ d2 : TestDisplay,
      (TestDisplay.ops Nat).run appRender 2 scnDisplay () =
        some (none, d2, ()) ∧ d2.screen_log.length = 2) := by
  constructor
  · intro fuel
    exact ⟨rfl, rfl⟩
  · exact ⟨_, rfl, rfl⟩

/-- C6 counterexample: an application that raises the termination signal
carrying exit value 42 already on the first synthetic resize: run
returns None — the first-call handler is a bare return that discards the
carried value. -/
theorem run_first_call_value_dropped :
    (TestDisplay.ops Nat).run appExitValue 1 (TestDisplay.init ⟨10, 5⟩) () =
      some (none, TestDisplay.init ⟨10, 5⟩, ()) ∧
    ∀ d2 : TestDisplay,
      (TestDisplay.ops Nat).run appExitValue 1 (TestDisplay.init ⟨10, 5⟩) () ≠
        some (some 42, d2, ()) := by
  refine ⟨rfl, ?_⟩
  intro d2 hcon
  have h1 : (TestDisplay.ops Nat).run appExitValue 1
      (TestDisplay.init ⟨10, 5⟩) () =
      some (none, TestDisplay.init ⟨10, 5⟩, ()) := rfl
  rw [h1] at hcon
  simp at hcon

/-- C6 (amended): a termination signal carrying an exit value that is
raised inside the event loop — by wait_for_event or by consume_event on a
waited-for event — makes run stop and return that value; but on the very
first synthetic-resize delivery run stops immediately without rendering
and returns no value, discarding any carried value. -/
theorem run_termination_values :
    (∀ (δ σ V : Type) (ops : DisplayOps δ V) (app : AppFun σ V)
        (fuel : Nat) (d : δ) (s : σ) (args : Option V),
      app s (Event.resize (ops.get_display_size d)) = Except.error args →
      ops.run app fuel d s = some (none, d, s)) ∧
    (∀ (δ σ V : Type) (ops : DisplayOps δ V) (app : AppFun σ V)
        (fuel : Nat) (d : δ) (s : σ) (v : V),
      ops.wait_for_event d = Except.error (some v) →
      runAux ops app (fuel + 1) d s = some (some v, d, s)) ∧
    (∀ (δ σ V : Type) (ops : DisplayOps δ V) (app : AppFun σ V)
        (fuel : Nat) (d d1 : δ) (s : σ) (e : Event) (v : V),
      ops.wait_for_event d = Except.ok (e, d1) →
      app s e = Except.error (some v) →
      runAux ops app (fuel + 1) d s = some (some v, d1, s)) := by
  refine ⟨?_, ?_, ?_⟩
  · intro δ σ V ops app fuel d s args happ
    unfold DisplayOps.run
    rw [happ]
  · intro δ σ V ops app fuel d s v hwait
    show runAux ops app (Nat.succ fuel) d s = _
    unfold runAux
    rw [hwait]
  · intro δ σ V ops app fuel d d1 s e v hwait happ
    show runAux ops app (Nat.succ fuel) d s = _
    unfold runAux
    rw [hwait]
    dsimp only
    rw [happ]

/-- Witness for C6 (amended): a first-call termination returns none; a
wait_for_event termination carrying 7 returns 7; a consume_event
termination carrying 42 returns 42. -/
theorem run_termination_values_witness :
    DisplayOps.run stopValueOps appTerminate 1 () () = some (none, (), ()) ∧
    runAux stopValueOps appRender 1 () () = some (some 7, (), ()) ∧
    runAux oneKeyOps appExitValue 1 () () = some (some 42, (), ()) :=
  ⟨run_termination_values.1 Unit Unit Nat stopValueOps appTerminate 1 () ()
      none rfl,
    run_termination_values.2.1 Unit Unit Nat stopValueOps appRender 0 () ()
      7 rfl,
    run_termination_values.2.2 Unit Unit Nat oneKeyOps appExitValue 0 () () ()
      (Event.keyboard 'x') 42 rfl rfl⟩

/-- C9 counterexample: on a 2 by 2 image with Z written at (0, 1), the
out-of-bounds read get(2, 0) does not fault: it silently returns the
cell stored at the other coordinate (0, 1). -/
theorem get_oob_silent_read :
    ∃ img2, (mkTextImage ⟨2, 2⟩).put 0 1 'Z' 0 0 0 = some img2 ∧
      img2.get 2 0 = some ⟨'Z', 0⟩ ∧ img2.get 2 0 = img2.get 0 1 ∧
      ¬ img2.inBounds 2 0 :=
  ⟨_, rfl, rfl, rfl, by decide⟩

/-- C9 (amended): put faults on every out-of-bounds coordinate, but get
performs no bounds check: it succeeds for any coordinates whose flat
index x + y * width lies inside the buffer, even out-of-bounds ones. -/
theorem put_get_bounds_behavior :
    (∀ (img : TextImage) (x y : Int) (c : Char) (a f b : Nat),
      ¬ img.inBounds x y → img.put x y c a f b = none) ∧
    (∀ (img : TextImage) (x y : Int), img.WF →
      0 ≤ x + y * img.size.width →
      x + y * img.size.width < img.size.width * img.size.height →
      ∃ cell, img.get x y = some cell) := by
  constructor
  · intro img x y c a f b hnot
    exact TextImage.put_none hnot
  · intro img x y hWF h0 hlt
    obtain ⟨hw, hh, hlt1, hla1⟩ := hWF
    have ht : (x + y * img.size.width).toNat < img.text_buffer.length := by
      rw [hlt1]; omega
    have ha : (x + y * img.size.width).toNat < img.attribute_buffer.length := by
      rw [hla1]; omega
    unfold TextImage.get
    rw [pyGetElem_nonneg _ h0, pyGetElem_nonneg _ h0,
      List.getElem?_eq_getElem ht, List.getElem?_eq_getElem ha]
    exact ⟨_, rfl⟩

/-- Witness for C9 (amended) on a 2 by 2 image: put at (2, 0) faults,
while get at (2, 0) — flat index 2, in range — succeeds. -/
theorem put_get_bounds_behavior_witness :
    (mkTextImage ⟨2, 2⟩).put 2 0 'Q' 0 0 0 = none ∧
    ∃ cell, (mkTextImage ⟨2, 2⟩).get 2 0 = some cell :=
  ⟨put_get_bounds_behavior.1 (mkTextImage ⟨2, 2⟩) 2 0 'Q' 0 0 0 (by decide),
    put_get_bounds_behavior.2 (mkTextImage ⟨2, 2⟩) 2 0 (by decide)
      (by decide) (by decide)⟩

/-- C4 counterexample: print of the empty string leaves the context —
including the offset (2, 0) — completely unchanged instead of advancing
the offset, because splitlines of the empty string yields no lines. -/
theorem print_empty_string_no_advance :
    ctxAt20.print [] = some ctxAt20 ∧ ctxAt20.offset = ⟨2, 0⟩ :=
  ⟨rfl, rfl⟩

/-- C4 (amended): print splits on line breaks and advances the offset by
(0, 1) per line keeping x fixed: print of A-newline-B at offset (2, 0)
with full-buffer clip puts A at (2, 0) and B at (2, 1) and leaves the
offset at (2, 2); a string of n line breaks paints nothing and moves the
offset down n rows; the empty string paints nothing and leaves the
offset unchanged. -/
theorem print_lines_behavior :
    (∃ ctx2, ctxAt20.print ['A', '\n', 'B'] = some ctx2 ∧
      ctx2.image.get 2 0 = some ⟨'A', ctxAt20.packedStyle⟩ ∧
      ctx2.image.get 2 1 = some ⟨'B', ctxAt20.packedStyle⟩ ∧
      ctx2.offset = ⟨2, 2⟩) ∧
    (∀ (ctx : DrawingContext) (n : Nat),
      ∃ ctx2, ctx.print (List.replicate n '\n') = some ctx2 ∧
        ctx2.image = ctx.image ∧ ctx2.offset.x = ctx.offset.x ∧
        ctx2.offset.y = ctx.offset.y + n) ∧
    (∀ ctx : DrawingContext, ctx.print [] = some ctx) := by
  refine ⟨⟨_, rfl, rfl, rfl, rfl⟩, ?_, fun ctx => rfl⟩
  intro ctx n
  unfold DrawingContext.print
  rw [splitlines_replicate_nl]
  obtain ⟨ctx2, hfold, himg, -, hx, hy⟩ := print_fold_empty n ctx
  exact ⟨ctx2, hfold, himg, hx, hy⟩

/-- C3 counterexample: with clip Rect2(0, 0, 3, 2) on a 2 by 2 buffer,
fill faults on the put bounds assertion at the out-of-buffer column
instead of skipping it. -/
theorem fill_oob_clip_fault : ctxWideClip.fill 'x' = none := rfl

/-- C3 (amended): when the clip rectangle is contained in the buffer,
fill writes the character with the current style to every clip cell and
leaves all other cells unchanged; when the clip contains an
out-of-buffer coordinate, fill faults on the put bounds assertion
instead of skipping it. -/
theorem fill_clip_behavior {ctx : DrawingContext} {c : Char}
    (hS : ctx.StyleOK) (hWF : ctx.image.WF) :
    ((∀ x y, ctx.clip.contains x y → ctx.image.inBounds x y) →
      ∃ ctx2, ctx.fill c = some ctx2 ∧
        (∀ x0 y0, ctx.image.inBounds x0 y0 →
          ctx2.image.get x0 y0 =
            if ctx.clip.contains x0 y0 then some ⟨c, ctx.packedStyle⟩
            else ctx.image.get x0 y0)) ∧
    ((∃ x y, ctx.clip.contains x y ∧ ¬ ctx.image.inBounds x y) →
      ctx.fill c = none) := by
  constructor
  · intro hsub
    obtain ⟨ctx2, hfill, -, -, hdesc⟩ := fill_spec_ok hS hWF hsub
    exact ⟨ctx2, hfill, hdesc⟩
  · intro hbad
    exact fill_spec_none hS hWF hbad

/-- Witness for C3 (amended): a full-buffer clip on a 2 by 2 image fills
every cell, and the oversized clip context faults. -/
theorem fill_clip_behavior_witness :
    (∃ ctx2, (DrawingContext.init (mkTextImage ⟨2, 2⟩)).fill 'x' = some ctx2 ∧
      (∀ x0 y0,
        (DrawingContext.init (mkTextImage ⟨2, 2⟩)).image.inBounds x0 y0 →
        ctx2.image.get x0 y0 =
          if (DrawingContext.init (mkTextImage ⟨2, 2⟩)).clip.contains x0 y0
          then some ⟨'x', (DrawingContext.init (mkTextImage ⟨2, 2⟩)).packedStyle⟩
          else (DrawingContext.init (mkTextImage ⟨2, 2⟩)).image.get x0 y0)) ∧
    ctxWideClip.fill 'x' = none := by
  constructor
  · exact (fill_clip_behavior (by decide) (by decide)).1 (by
      intro x y hc
      obtain ⟨h1, h2, h3, h4⟩ := hc
      exact ⟨h1, h2, h3, h4⟩)
  · exact (fill_clip_behavior (by decide) (by decide)).2
      ⟨2, 0, by decide, by decide⟩

/-- C5 counterexample: with clip Rect2(0, 0, 5, 5) extending outside a
2 by 2 buffer, a print at the offset (2, 0) — beyond the buffer — passes
the clip test and faults on the put bounds assertion instead of being
silently dropped. -/
theorem print_oob_clip_fault : ctxOobOffset.print ['A'] = none := rfl

/-- C5 (amended): when the clip rectangle is contained in the buffer, a
paint at a coordinate at or beyond the buffer bounds is silently dropped
by the clip test and print never faults for any text and offset; a clip
that extends outside the buffer does not protect such paints (see
counterexample). -/
theorem print_clip_safety {ctx : DrawingContext}
    (hS : ctx.StyleOK) (hWF : ctx.image.WF) (hCS : ctx.ClipSafe) :
    (∀ text : List Char, ∃ ctx2, ctx.print text = some ctx2) ∧
    (∀ (x y : Int) (c : Char), ¬ ctx.image.inBounds x y →
      ctx.put_x_y_c x y c = some ctx) := by
  constructor
  · intro text
    exact print_all_ok text hS hWF hCS
  · intro x y c hnot
    obtain ⟨ctx2, hput, -, -, hdrop⟩ := put_x_y_c_ok x y c hS hWF hCS
    rw [hput, hdrop hnot]

/-- Witness for C5 (amended): on a full-buffer clip over a 2 by 2 image,
print succeeds, and the paint at (5, 5) is dropped with the context
unchanged. -/
theorem print_clip_safety_witness :
    (∃ ctx2,
      (DrawingContext.init (mkTextImage ⟨2, 2⟩)).print ['A'] = some ctx2) ∧
    (DrawingContext.init (mkTextImage ⟨2, 2⟩)).put_x_y_c 5 5 'A' =
      some (DrawingContext.init (mkTextImage ⟨2, 2⟩)) := by
  have h := @print_clip_safety (DrawingContext.init (mkTextImage ⟨2, 2⟩))
    (by decide) (by decide) (by
      intro x y hc
      obtain ⟨h1, h2, h3, h4⟩ := hc
      exact ⟨h1, h2, h3, h4⟩)
  exact ⟨h.1 ['A'], h.2 5 5 'A' (by decide)⟩

/-- C7: the style setters store exactly their style field and leave the
rest of the context alone, the stored style is what a subsequent
clip-tested paint call packs into the written cell, and attribute bits
are combinable with bitwise or (UNDERLINE with REVERSE is 3). -/
theorem style_setters_apply :
    (∀ (ctx : DrawingContext) (color : Nat),
      (ctx.set_fg_color color).foreground = color ∧
      (ctx.set_fg_color color).background = ctx.background ∧
      (ctx.set_fg_color color).attrib = ctx.attrib ∧
      (ctx.set_fg_color color).image = ctx.image ∧
      (ctx.set_fg_color color).offset = ctx.offset ∧
      (ctx.set_fg_color color).clip = ctx.clip) ∧
    (∀ (ctx : DrawingContext) (color : Nat),
      (ctx.set_bg_color color).background = color ∧
      (ctx.set_bg_color color).foreground = ctx.foreground ∧
      (ctx.set_bg_color color).attrib = ctx.attrib) ∧
    (∀ (ctx : DrawingContext) (a : Nat),
      (ctx.set_attribute a).attrib = a ∧
      (ctx.set_attribute a).foreground = ctx.foreground ∧
      (ctx.set_attribute a).background = ctx.background) ∧
    (∀ ctx : DrawingContext,
      ctx.reset_colors.foreground = WHITE ∧
      ctx.reset_colors.background = BLACK) ∧
    (∀ (ctx : DrawingContext) (a fgc bgc : Nat),
      (((ctx.set_attribute a).set_fg_color fgc).set_bg_color bgc).packedStyle =
        (a <<< 8) ||| ((fgc <<< 4) ||| bgc)) ∧
    UNDERLINE ||| REVERSE = 3 ∧
    (∀ (ctx : DrawingContext) (x y : Int) (c : Char),
      ctx.StyleOK → ctx.image.WF → ctx.clip.contains x y →
      ctx.image.inBounds x y →
      ∃ ctx2, ctx.put_x_y_c x y c = some ctx2 ∧
        ctx2.image.get x y = some ⟨c, ctx.packedStyle⟩) := by
  refine ⟨fun ctx color => ⟨rfl, rfl, rfl, rfl, rfl, rfl⟩,
    fun ctx color => ⟨rfl, rfl, rfl⟩,
    fun ctx a => ⟨rfl, rfl, rfl⟩,
    fun ctx => ⟨rfl, rfl⟩,
    fun ctx a fgc bgc => rfl,
    rfl, ?_⟩
  intro ctx x y c hS hWF hc hin
  obtain ⟨h1, h2, h3, h4⟩ := hc
  unfold DrawingContext.put_x_y_c
  rw [if_pos ⟨h1, h2, h3, h4⟩]
  obtain ⟨ctx2, hput, -, -, hget, -⟩ := DrawingContext.putCell_spec hS hWF hin
  exact ⟨ctx2, hput, hget⟩

/-- Witness for C7: after set_attribute (UNDERLINE or REVERSE) and
set_fg_color BRIGHT_GREEN, a paint at (1, 0) writes the packed current
style. -/
theorem style_setters_apply_witness :
    ∃ ctx2,
      (((DrawingContext.init (mkTextImage ⟨2, 2⟩)).set_attribute
          (UNDERLINE ||| REVERSE)).set_fg_color BRIGHT_GREEN).put_x_y_c
        1 0 'S' = some ctx2 ∧
      ctx2.image.get 1 0 = some ⟨'S',
        (((DrawingContext.init (mkTextImage ⟨2, 2⟩)).set_attribute
          (UNDERLINE ||| REVERSE)).set_fg_color BRIGHT_GREEN).packedStyle⟩ :=
  style_setters_apply.2.2.2.2.2.2
    (((DrawingContext.init (mkTextImage ⟨2, 2⟩)).set_attribute
      (UNDERLINE ||| REVERSE)).set_fg_color BRIGHT_GREEN)
    1 0 'S' (by decide) (by decide) (by decide) (by decide)

/-- C10: PrintDisplay.display_image renders with the display's own
configured size, not the image's: the output frame encloses exactly the
display's own height body lines, each sliced from the image's flat text
buffer with the display's own width; with an image of the display's size
every line is a full image row, while an image of a different size is
rendered from misaligned or truncated slices with no error raised. -/
theorem print_display_own_size :
    (∀ (d : PrintDisplay) (img : TextImage),
      (d.display_image img).length = d.screen.size.height.toNat + 2) ∧
    (∀ (d : PrintDisplay) (img : TextImage) (k : Nat),
      k < d.screen.size.height.toNat →
      (d.display_image img)[k + 1]? =
        some (['|'] ++ pySlice img.text_buffer
          ((k : Int) * d.screen.size.width)
          (((k : Int) + 1) * d.screen.size.width) ++ ['|'])) ∧
    (∀ (d : PrintDisplay) (img : TextImage) (k : Nat),
      img.size = d.screen.size → img.WF → k < d.screen.size.height.toNat →
      (pySlice img.text_buffer ((k : Int) * d.screen.size.width)
        (((k : Int) + 1) * d.screen.size.width)).length =
        d.screen.size.width.toNat) ∧
    (PrintDisplay.init ⟨2, 2⟩).display_image imgABC =
      [['/', '=', '=', '\\'], ['|', 'A', 'B', '|'], ['|', 'C', '|'],
       ['\\', '=', '=', '/']] := by
  refine ⟨?_, ?_, ?_, rfl⟩
  · intro d img
    unfold PrintDisplay.display_image
    rw [List.length_append, List.length_cons, List.length_map,
      intRange_length]
    simp
  · intro d img k hk
    unfold PrintDisplay.display_image
    rw [List.getElem?_append,
      if_pos (by rw [List.length_cons, List.length_map, intRange_length]; omega),
      List.getElem?_cons_succ, List.getElem?_map]
    rw [show (intRange 0 d.screen.size.height)[k]? =
        some ((0 : Int) + (k : Int)) from by
      unfold intRange
      rw [List.getElem?_map, List.getElem?_range (by omega)]
      rfl]
    simp only [Option.map_some']
    rw [zero_add]
  · intro d img k hsz hWF hk
    obtain ⟨hw, hh, hlt, -⟩ := hWF
    rw [hsz] at hw hh hlt
    unfold pySlice
    rw [List.length_take, List.length_drop, hlt]
    have hba : ((k : Int) + 1) * d.screen.size.width -
        (k : Int) * d.screen.size.width = d.screen.size.width := by ring
    rw [hba]
    have h1 : ((k : Int) + 1) * d.screen.size.width ≤
        d.screen.size.width * d.screen.size.height := by
      have hkh : (k : Int) + 1 ≤ d.screen.size.height := by omega
      calc ((k : Int) + 1) * d.screen.size.width ≤
            d.screen.size.height * d.screen.size.width :=
              mul_le_mul_of_nonneg_right hkh hw
        _ = d.screen.size.width * d.screen.size.height := mul_comm _ _
    have h2 : 0 ≤ (k : Int) * d.screen.size.width :=
      mul_nonneg (by omega) hw
    have h3 : ((k : Int) + 1) * d.screen.size.width =
        (k : Int) * d.screen.size.width + d.screen.size.width := by ring
    omega

/-- Witness for C10 at a 2 by 2 display: the second body line of a 2 by 2
image render, and its full-row length. -/
theorem print_display_own_size_witness :
    ((PrintDisplay.init ⟨2, 2⟩).display_image (mkTextImage ⟨2, 2⟩))[(1 : Nat) + 1]? =
      some (['|'] ++ pySlice (mkTextImage ⟨2, 2⟩).text_buffer
        (((1 : Nat) : Int) * (PrintDisplay.init ⟨2, 2⟩).screen.size.width)
        ((((1 : Nat) : Int) + 1) * (PrintDisplay.init ⟨2, 2⟩).screen.size.width)
        ++ ['|']) ∧
    (pySlice (mkTextImage ⟨2, 2⟩).text_buffer
      (((1 : Nat) : Int) * (PrintDisplay.init ⟨2, 2⟩).screen.size.width)
      ((((1 : Nat) : Int) + 1) * (PrintDisplay.init ⟨2, 2⟩).screen.size.width)).length =
      (PrintDisplay.init ⟨2, 2⟩).screen.size.width.toNat :=
  ⟨print_display_own_size.2.1 (PrintDisplay.init ⟨2, 2⟩) (mkTextImage ⟨2, 2⟩)
      1 (by decide),
    print_display_own_size.2.2.1 (PrintDisplay.init ⟨2, 2⟩)
      (mkTextImage ⟨2, 2⟩) 1 rfl (by decide) (by decide)⟩

end Textland
